import Mathlib

/-!
Verification of the BrainMaze maze-generation and pathfinding core.

The Python sources are embedded shallowly:

* a grid (`list[list[int]]` in Python, indexed `grid[y][x]`) becomes a
  function `Grid := Nat → Nat → Nat`, read as `g j i = grid[j][i]`;
  in-place assignment becomes a pointwise functional update (`setCell`);
* search coordinates, which may step outside the grid before the bounds
  check fires, are `Int × Int`;
* unbounded `while` loops become fuel-indexed recursions returning
  `Option`, with `none` marking fuel exhaustion (the loops terminate in
  Python; where a claim needs it we prove a concrete fuel bound suffices);
* the global `random` module becomes an explicit stream `Nat → Nat` of
  draws together with a running draw index; a comparison
  `random.random() < p` (for `0 < p < 1`) is modelled as the parity of the
  next draw, so every sequence of outcomes corresponds to some stream.
-/

namespace BrainMaze

/-- Cell values as in `src/systems/maze_constants.py`: `PATH = 0`, `WALL = 1`. -/
def PATH : Nat := 0

/-- Wall cell value. -/
def WALL : Nat := 1

/-- A maze grid: `g j i` is the Python `grid[j][i]` (row `j`, column `i`). -/
def Grid := Nat → Nat → Nat

/-- Functional update: Python `grid[j][i] = v`. -/
def setCell (g : Grid) (j i v : Nat) : Grid :=
  fun j' i' => if j' = j ∧ i' = i then v else g j' i'

/-- Search coordinates `(x, y)`; they may leave the grid before bounds checks. -/
abbrev Pos := Int × Int

/-- Direction list `[(0, -1), (1, 0), (0, 1), (-1, 0)]` used by the validator,
the looper and `maze.py` (N, E, S, W scan order). -/
def dirsNESW : List Pos := [(0, -1), (1, 0), (0, 1), (-1, 0)]

/-! ## MazeValidator (src/systems/maze_validator.py) -/

/-- `MazeValidator._is_valid_path`: in bounds and not a wall. -/
def isValidPath (g : Grid) (gs : Nat) (x y : Int) : Bool :=
  decide (0 ≤ x ∧ x < (gs : Int) ∧ 0 ≤ y ∧ y < (gs : Int)
    ∧ g y.toNat x.toNat ≠ WALL)

/-- The inner `for dx, dy in [...]` body of `MazeValidator.is_connected`:
for each direction in turn, return `true` if the neighbour is `end`,
else enqueue it when it is a valid unvisited path cell.  Returns the
early-return flag together with the updated visited set and queue. -/
def connDirs (g : Grid) (gs : Nat) (e : Pos) :
    List Pos → Pos → List Pos → List Pos → Bool × List Pos × List Pos
  | [], _, visited, queue => (false, visited, queue)
  | (dx, dy) :: ds, (x, y), visited, queue =>
    if ((x + dx, y + dy) : Pos) = e then (true, visited, queue)
    else if isValidPath g gs (x + dx) (y + dy) = true
        ∧ ((x + dx, y + dy) : Pos) ∉ visited then
      connDirs g gs e ds (x, y) ((x + dx, y + dy) :: visited)
        (queue ++ [(x + dx, y + dy)])
    else
      connDirs g gs e ds (x, y) visited queue

/-- The `while queue:` loop of `MazeValidator.is_connected`, fuel-indexed.
`none` means the fuel ran out before the loop finished. -/
def connLoop (g : Grid) (gs : Nat) (e : Pos) :
    Nat → List Pos → List Pos → Option Bool
  | 0, _, _ => none
  | fuel + 1, visited, queue =>
    match queue with
    | [] => some false
    | p :: rest =>
      match connDirs g gs e dirsNESW p visited rest with
      | (true, _, _) => some true
      | (false, v', q') => connLoop g gs e fuel v' q'

/-- Fuel budget that (provably) always suffices for the validator BFS. -/
def connFuel (gs : Nat) : Nat := 2 * gs * gs + 2

/-- `MazeValidator.is_connected(start, end)`, with the loop run on the
sufficient fuel budget. -/
def is_connected (g : Grid) (gs : Nat) (s e : Pos) : Option Bool :=
  if s = e then some true
  else connLoop g gs e (connFuel gs) [s] [s]

/-! Declarative reachability, to compare `is_connected` against. -/

/-- `q` is one of the four orthogonal neighbours of `p`. -/
def Adj (p q : Pos) : Prop := ∃ d ∈ dirsNESW, q = (p.1 + d.1, p.2 + d.2)

/-- One BFS step: move to an adjacent cell that is in bounds and not a wall. -/
def VStep (g : Grid) (gs : Nat) (p q : Pos) : Prop :=
  Adj p q ∧ isValidPath g gs q.1 q.2 = true

/-- Reachability through valid path cells (the start cell itself is not
required to be valid, matching the BFS which expands from `start`
unconditionally). -/
def Reach (g : Grid) (gs : Nat) : Pos → Pos → Prop :=
  Relation.ReflTransGen (VStep g gs)

/-- What `is_connected` computes, stated declaratively: either the endpoints
coincide, or some cell reachable from `start` through valid path cells has
`end` as an orthogonal neighbour (the BFS returns `True` on merely seeing
`end` as a neighbour, without checking that `end` is a valid cell). -/
def ConnSpec (g : Grid) (gs : Nat) (s e : Pos) : Prop :=
  s = e ∨ ∃ c, Reach g gs s c ∧ Adj c e

/-! ## Maze wall queries (src/systems/maze.py) -/

/-- `Maze.is_wall(x, y)`: out-of-bounds counts as wall. -/
def mazeIsWall (g : Grid) (gs : Nat) (x y : Int) : Bool :=
  if 0 ≤ x ∧ x < (gs : Int) ∧ 0 ≤ y ∧ y < (gs : Int) then
    decide (g y.toNat x.toNat = WALL)
  else
    true

/-! ## AStarPathfinder (src/ai/pathfinding.py) -/

/-- Neighbour order used by the pathfinder: up, down, left, right. -/
def dirsAStar : List Pos := [(0, -1), (0, 1), (-1, 0), (1, 0)]

/-- `AStarPathfinder._heuristic`: Manhattan distance. -/
def manhattan (p q : Pos) : Nat := (p.1 - q.1).natAbs + (p.2 - q.2).natAbs

/-- `AStarPathfinder._is_valid_position`: within bounds and not a wall. -/
def astarValidPos (g : Grid) (gs : Nat) (p : Pos) : Bool :=
  if p.1 < 0 ∨ (gs : Int) ≤ p.1 ∨ p.2 < 0 ∨ (gs : Int) ≤ p.2 then false
  else !mazeIsWall g gs p.1 p.2

/-- `AStarPathfinder._get_neighbors`: valid neighbours in fixed order. -/
def astarNeighbors (g : Grid) (gs : Nat) (p : Pos) : List Pos :=
  (dirsAStar.map (fun d => (p.1 + d.1, p.2 + d.2))).filter (astarValidPos g gs)

/-- A heap entry `(f_score, counter, position)` as pushed onto `open_set`. -/
abbrev AEntry := Nat × Nat × Pos

/-- Strict-or-equal order on heap entries: lexicographic on
`(f_score, counter)`; counters are unique so positions are never compared,
exactly as in the Python tuple ordering used by `heapq`. -/
def entryLE (a b : AEntry) : Bool :=
  a.1 < b.1 || (a.1 == b.1 && a.2.1 ≤ b.2.1)

/-- `heapq.heappop`: extract the least entry (unique, by unique counters). -/
def heapPop (l : List AEntry) : Option (AEntry × List AEntry) :=
  match l with
  | [] => none
  | e :: rest =>
    let m := rest.foldl (fun a b => if entryLE a b then a else b) e
    some (m, l.erase m)

/-- First-match association-list lookup, modelling a Python dict in which
assignment prepends a (shadowing) binding. -/
def plook {α : Type} : List (Pos × α) → Pos → Option α
  | [], _ => none
  | (k, v) :: r, p => if k = p then some v else plook r p

/-- Mutable state of `AStarPathfinder.find_path`. -/
structure AState where
  openSet : List AEntry
  openPos : List Pos
  cameFrom : List (Pos × Pos)
  gScore : List (Pos × Nat)
  fScore : List (Pos × Nat)
  counter : Nat

/-- `AStarPathfinder._reconstruct_path`, built back-to-front so no final
reverse is needed; fuel-indexed (the `came_from` chain is finite in every
reachable state). -/
def reconstructPath (came : List (Pos × Pos)) : Nat → Pos → List Pos → List Pos
  | 0, cur, acc => cur :: acc
  | fuel + 1, cur, acc =>
    match plook came cur with
    | some prev => reconstructPath came fuel prev (cur :: acc)
    | none => cur :: acc

/-- The `for neighbor in self._get_neighbors(current)` body of `find_path`:
relax each neighbour, recording the better path and pushing fresh open-set
entries (but, as in the source, never re-pushing a node already present in
`open_set_positions`, even when its `g_score` just improved). -/
def relaxNeighbors (goal : Pos) (cur : Pos) : List Pos → AState → AState
  | [], st => st
  | nb :: nbs, st =>
    let tentative := (plook st.gScore cur).getD 0 + 1
    let better := match plook st.gScore nb with
      | none => true
      | some old => decide (tentative < old)
    if better then
      let fnew := tentative + manhattan nb goal
      let st' : AState :=
        { st with
          cameFrom := (nb, cur) :: st.cameFrom
          gScore := (nb, tentative) :: st.gScore
          fScore := (nb, fnew) :: st.fScore }
      if nb ∈ st'.openPos then
        relaxNeighbors goal cur nbs st'
      else
        relaxNeighbors goal cur nbs
          { st' with
            openSet := st'.openSet ++ [(fnew, st'.counter, nb)]
            openPos := nb :: st'.openPos
            counter := st'.counter + 1 }
    else
      relaxNeighbors goal cur nbs st

/-- The `while open_set:` loop of `find_path`.  The outer `none` marks fuel
exhaustion; `some none` is the Python `return None` (no path); `some (some p)`
is a returned path. -/
def astarLoop (g : Grid) (gs : Nat) (goal : Pos) :
    Nat → AState → Option (Option (List Pos))
  | 0, _ => none
  | fuel + 1, st =>
    match heapPop st.openSet with
    | none => some none
    | some ((_, _, cur), rest) =>
      let st := { st with openSet := rest, openPos := st.openPos.erase cur }
      if cur = goal then
        some (some (reconstructPath st.cameFrom (fuel + 1) cur []))
      else
        astarLoop g gs goal fuel
          (relaxNeighbors goal cur (astarNeighbors g gs cur) st)

/-- Fuel budget for the A* loop; ample for every run (each node is pushed at
most once per strict improvement of its `g_score`). -/
def astarFuel (gs : Nat) : Nat := gs * gs * gs * gs + 2

/-- `AStarPathfinder.find_path(start, goal)`. -/
def find_path (g : Grid) (gs : Nat) (start goal : Pos) :
    Option (Option (List Pos)) :=
  if ¬ (astarValidPos g gs start = true) ∨ ¬ (astarValidPos g gs goal = true) then
    some none
  else if start = goal then
    some (some [start])
  else
    astarLoop g gs goal (astarFuel gs)
      { openSet := [(0, 0, start)]
        openPos := [start]
        cameFrom := []
        gScore := [(start, 0)]
        fScore := [(start, manhattan start goal)]
        counter := 1 }

/-- A list of positions is a genuine 4-directional walk through walkable
cells from `start` to `goal` (used to exhibit paths shorter than the one
`find_path` returns). -/
def validWalk (g : Grid) (gs : Nat) : Pos → Pos → List Pos → Bool
  | _, _, [] => false
  | start, goal, [p] =>
    decide (p = start) && decide (p = goal) && astarValidPos g gs p
  | start, goal, p :: q :: r =>
    decide (p = start) && astarValidPos g gs p
      && dirsNESW.any (fun d => decide (q = (p.1 + d.1, p.2 + d.2)))
      && validWalk g gs q goal (q :: r)

/-! ## find_nearest_walkable_tile (src/ai/pathfinding.py) -/

/-- The `for dx, dy` body of `find_nearest_walkable_tile`: scan the four
neighbours of the dequeued wall cell; return a walkable neighbour at once,
otherwise mark and enqueue unvisited in-bounds wall neighbours. -/
def nearestDirs (g : Grid) (gs : Nat) :
    List Pos → Pos × Nat → List Pos → List (Pos × Nat) →
      Option Pos × List Pos × List (Pos × Nat)
  | [], _, visited, queue => (none, visited, queue)
  | (dx, dy) :: ds, ((x, y), dist), visited, queue =>
    let n : Pos := (x + dx, y + dy)
    if n.1 < 0 ∨ (gs : Int) ≤ n.1 ∨ n.2 < 0 ∨ (gs : Int) ≤ n.2 then
      nearestDirs g gs ds ((x, y), dist) visited queue
    else if n ∈ visited then
      nearestDirs g gs ds ((x, y), dist) visited queue
    else
      let visited' := n :: visited
      if ¬ (mazeIsWall g gs n.1 n.2 = true) then
        (some n, visited', queue)
      else
        nearestDirs g gs ds ((x, y), dist) visited' (queue ++ [(n, dist + 1)])

/-- The `while queue:` loop of `find_nearest_walkable_tile`, fuel-indexed. -/
def nearestLoop (g : Grid) (gs : Nat) (maxRadius : Nat) :
    Nat → List Pos → List (Pos × Nat) → Option (Option Pos)
  | 0, _, _ => none
  | fuel + 1, visited, queue =>
    match queue with
    | [] => some none
    | (p, dist) :: rest =>
      if maxRadius < dist then some none
      else
        match nearestDirs g gs dirsAStar (p, dist) visited rest with
        | (some hit, _, _) => some (some hit)
        | (none, v', q') => nearestLoop g gs maxRadius fuel v' q'

/-- `find_nearest_walkable_tile(maze, target_x, target_y, max_search_radius)`.
The outer `none` again marks fuel exhaustion only. -/
def find_nearest_walkable_tile (g : Grid) (gs : Nat) (tx ty : Int)
    (maxRadius : Nat) : Option (Option Pos) :=
  if ¬ (mazeIsWall g gs tx ty = true) then some (some (tx, ty))
  else nearestLoop g gs maxRadius (2 * gs * gs + 2) [(tx, ty)] [((tx, ty), 0)]

/-! ## MazeLooper (src/systems/maze_looper.py) -/

/-- `MazeLooper._is_valid_grid_cell`. -/
def isValidGridCell (gs : Nat) (x y : Int) : Bool :=
  decide (0 ≤ x ∧ x < (gs : Int) ∧ 0 ≤ y ∧ y < (gs : Int))

/-- The `open_count` scan inside `MazeLooper._find_dead_ends`: the number of
in-bounds, non-wall orthogonal neighbours. -/
def openCount (g : Grid) (gs : Nat) (x y : Int) : Nat :=
  (dirsNESW.filter (fun d =>
    isValidGridCell gs (x + d.1) (y + d.2)
      && !mazeIsWall g gs (x + d.1) (y + d.2))).length

/-- `MazeLooper._find_dead_ends`: row-major scan for non-wall cells with
exactly one open neighbour. -/
def find_dead_ends (g : Grid) (gs : Nat) : List Pos :=
  ((List.range gs).map (fun (y : Nat) =>
    (List.range gs).filterMap (fun (x : Nat) =>
      if ¬ (mazeIsWall g gs (x : Int) (y : Int) = true)
          ∧ openCount g gs (x : Int) (y : Int) = 1 then
        some ((x : Int), (y : Int))
      else none))).flatten

/-- The neighbour scan of one `_path_distance` BFS iteration. -/
def pathDistDirs (g : Grid) (gs : Nat) :
    List Pos → Pos → Nat → List Pos → List (Pos × Nat) →
      List Pos × List (Pos × Nat)
  | [], _, _, visited, queue => (visited, queue)
  | (dx, dy) :: ds, (x, y), dist, visited, queue =>
    let n : Pos := (x + dx, y + dy)
    if isValidGridCell gs n.1 n.2 ∧ ¬ (mazeIsWall g gs n.1 n.2 = true)
        ∧ n ∉ visited then
      pathDistDirs g gs ds (x, y) dist (n :: visited) (queue ++ [(n, dist + 1)])
    else
      pathDistDirs g gs ds (x, y) dist visited queue

/-- The `while queue:` loop of `MazeLooper._path_distance`. -/
def pathDistLoop (g : Grid) (gs : Nat) (target : Pos) :
    Nat → List Pos → List (Pos × Nat) → Option Int
  | 0, _, _ => none
  | _ + 1, _, [] => some (-1)
  | fuel + 1, visited, (p, dist) :: rest =>
    if p = target then some (dist : Int)
    else
      let (v', q') := pathDistDirs g gs dirsNESW p dist visited rest
      pathDistLoop g gs target fuel v' q'

/-- `MazeLooper._path_distance(start, end)`: BFS hop distance through
non-wall cells, `-1` when unreachable.  The fuel budget is ample (the loop
pops at most one entry per cell ever visited). -/
def path_distance (g : Grid) (gs : Nat) (s t : Pos) : Int :=
  (pathDistLoop g gs t (2 * gs * gs + 2) [s] [(s, 0)]).getD (-1)

/-- The per-direction guard of `_find_longest_cycle_wall`: the adjacent cell
is an in-bounds wall and the cell beyond it is in-bounds and not a wall. -/
def flcwGuard (g : Grid) (gs : Nat) (p d : Pos) : Prop :=
  isValidGridCell gs (p.1 + d.1) (p.2 + d.2) = true
    ∧ mazeIsWall g gs (p.1 + d.1) (p.2 + d.2) = true
    ∧ isValidGridCell gs (p.1 + d.1 + d.1) (p.2 + d.2 + d.2) = true
    ∧ ¬ (mazeIsWall g gs (p.1 + d.1 + d.1) (p.2 + d.2 + d.2) = true)

instance (g : Grid) (gs : Nat) (p d : Pos) : Decidable (flcwGuard g gs p d) := by
  unfold flcwGuard; infer_instance

/-- One step of the direction scan in `_find_longest_cycle_wall`. -/
def flcwStep (g : Grid) (gs : Nat) (p : Pos) (best : Option Pos × Int)
    (d : Pos) : Option Pos × Int :=
  if flcwGuard g gs p d then
    if best.2 < path_distance g gs p (p.1 + d.1 + d.1, p.2 + d.2 + d.2) then
      (some d, path_distance g gs p (p.1 + d.1 + d.1, p.2 + d.2 + d.2))
    else best
  else best

/-- `MazeLooper._find_longest_cycle_wall(pos)`: among the four directions
whose adjacent cell is an in-bounds wall with an in-bounds non-wall cell
just beyond, pick the one whose beyond-cell is at maximal `_path_distance`
from `pos` (strictly improving, so the first maximum in N,E,S,W order wins);
`none` when no direction qualifies. -/
def find_longest_cycle_wall (g : Grid) (gs : Nat) (p : Pos) : Option Pos :=
  (dirsNESW.foldl (flcwStep g gs p) ((none : Option Pos), (-1 : Int))).1

/-- The `for dead_end in dead_ends:` body of `remove_dead_ends`: carve the
chosen wall (writing `PATH`) for each dead end in turn, on the evolving
grid.  The carved coordinates are in bounds whenever a direction is
returned, so the `Int.toNat` coercions are exact. -/
def carveDeadEnds (gs : Nat) : Grid → List Pos → Grid
  | g, [] => g
  | g, d :: ds =>
    match find_longest_cycle_wall g gs d with
    | some (dx, dy) =>
      carveDeadEnds gs (setCell g (d.2 + dy).toNat (d.1 + dx).toNat PATH) ds
    | none => carveDeadEnds gs g ds

/-- `MazeLooper.remove_dead_ends`: repeat scan-and-carve passes until a scan
finds no dead ends; fuel-indexed because the Python `while True:` loop can
in fact run forever (see the C3 counterexample). -/
def remove_dead_ends (gs : Nat) : Nat → Grid → Option Grid
  | 0, _ => none
  | fuel + 1, g =>
    if (find_dead_ends g gs).isEmpty then some g
    else remove_dead_ends gs fuel (carveDeadEnds gs g (find_dead_ends g gs))

/-- `remove_dead_ends` terminates on `g` when some fuel completes the loop. -/
def looperTerminates (gs : Nat) (g : Grid) : Prop :=
  ∃ fuel, (remove_dead_ends gs fuel g).isSome

/-! ## MazeValidator.is_fully_traversable and Maze start/end selection -/

/-- The neighbour scan of one `is_fully_traversable` BFS iteration. -/
def travDirs (g : Grid) (gs : Nat) :
    List Pos → Pos → List Pos → List Pos → List Pos × List Pos
  | [], _, visited, queue => (visited, queue)
  | (dx, dy) :: ds, (x, y), visited, queue =>
    let n : Pos := (x + dx, y + dy)
    if isValidPath g gs n.1 n.2 ∧ n ∉ visited then
      travDirs g gs ds (x, y) (n :: visited) (queue ++ [n])
    else
      travDirs g gs ds (x, y) visited queue

/-- The `while queue:` loop of `is_fully_traversable`, returning the final
visited set. -/
def travLoop (g : Grid) (gs : Nat) :
    Nat → List Pos → List Pos → Option (List Pos)
  | 0, _, _ => none
  | _ + 1, visited, [] => some visited
  | fuel + 1, visited, p :: rest =>
    let (v', q') := travDirs g gs dirsNESW p visited rest
    travLoop g gs fuel v' q'

/-- Total number of `PATH` cells, as scanned by `is_fully_traversable`. -/
def totalPaths (g : Grid) (gs : Nat) : Nat :=
  ((List.range gs).map (fun j =>
    ((List.range gs).filter (fun i => g j i == PATH)).length)).foldl (· + ·) 0

/-- `MazeValidator.is_fully_traversable(start_pos)`: `False` for a missing
start, else compare the number of BFS-reachable cells with the number of
`PATH` cells. -/
def is_fully_traversable (g : Grid) (gs : Nat) : Option Pos → Option Bool
  | none => some false
  | some s =>
    match travLoop g gs (2 * gs * gs + 2) [s] [s] with
    | none => none
    | some visited => some (visited.length == totalPaths g gs)

/-- `Maze._find_start_end` (src/systems/maze.py): the first `PATH` cell in
row-major order within the top-left 3-by-3 corner (fallback `(1, 1)`), and
the first `PATH` cell in row-major order within the bottom-right 3-by-3
corner (fallback `(grid_size - 2, grid_size - 2)`). -/
def find_start_end (g : Grid) (gs : Nat) : Pos × Pos :=
  let s := (List.range (min 3 gs)).findSome? (fun y =>
    (List.range (min 3 gs)).findSome? (fun x =>
      if g y x = PATH then some ((x : Int), (y : Int)) else none))
  let e := ((List.range gs).filter (fun y => gs - 3 ≤ y)).findSome? (fun y =>
    ((List.range gs).filter (fun x => gs - 3 ≤ x)).findSome? (fun x =>
      if g y x = PATH then some ((x : Int), (y : Int)) else none))
  (s.getD (1, 1), e.getD ((gs : Int) - 2, (gs : Int) - 2))

/-! ## MazeOrchestrator -/

/-- The all-`PATH` fallback grid. -/
def allPathGrid : Grid := fun _ _ => PATH

/-- Modelled from the spec: the generator-driven orchestrator (the `Maze`
constructed with a `generator` argument in `main.py` and the tests) is not
among the sources; per spec section 4.4 each attempt calls the selected
generator, computes fresh corner-based start/end (the in-source
`Maze._find_start_end` scan), and accepts exactly when both `is_connected`
and `is_fully_traversable` pass.  `remaining` counts attempts left, `k` is
the current attempt index; `none` means every attempt was rejected. -/
def orchTry (gen : Nat → Grid) (gs : Nat) :
    Nat → Nat → Option (Grid × Pos × Pos)
  | 0, _ => none
  | remaining + 1, k =>
    if is_connected (gen k) gs (find_start_end (gen k) gs).1
          (find_start_end (gen k) gs).2 = some true
        ∧ is_fully_traversable (gen k) gs
          (some (find_start_end (gen k) gs).1) = some true then
      some (gen k, (find_start_end (gen k) gs).1, (find_start_end (gen k) gs).2)
    else
      orchTry gen gs remaining (k + 1)

/-- Modelled from the spec: the full orchestrator run — up to `maxAttempts`
generate-and-validate attempts, then the guaranteed fallback: an all-`PATH`
grid with default opposite-corner start/end, never an error. -/
def orchestrate (gen : Nat → Grid) (gs maxAttempts : Nat) : Grid × Pos × Pos :=
  (orchTry gen gs maxAttempts 0).getD
    (allPathGrid, (1, 1), ((gs : Int) - 2, (gs : Int) - 2))

/-! ## Randomness model for the generators

Python's global `random` module becomes a stream `rs : Nat → Nat` of draws
plus a running index `k`; every `random.*` call consumes exactly one draw,
in program order. -/

/-- A stream of random draws. -/
abbrev RS := Nat → Nat

/-- `random.choice([True, False])`: index `draw mod 2` into the list. -/
def rsBool (rs : RS) (k : Nat) : Bool := rs k % 2 == 0

/-- `random.random() < p` for a threshold strictly between 0 and 1
(`north_bias`, `0.5`): both outcomes are realisable, so the comparison is
modelled as the parity of the next draw. -/
def rsCoin (rs : RS) (k : Nat) : Bool := rs k % 2 == 0

/-- `random.randint(a, b)` (both ends inclusive). -/
def rsRandint (rs : RS) (k a b : Nat) : Nat := a + rs k % (b - a + 1)

/-- `random.randrange(start, stop, 2)`. -/
def rsRandrange2 (rs : RS) (k start stop : Nat) : Nat :=
  start + 2 * (rs k % ((stop - start + 1) / 2))

/-- `random.choice(l)` for a nonempty list `l`. -/
def rsChoice {α : Type} (rs : RS) (k : Nat) (l : List α) (dflt : α) : α :=
  l.getD (rs k % l.length) dflt

/-- Python `range(start, stop, step)` for positive `step`. -/
def pyRange (start stop step : Nat) : List Nat :=
  (List.range ((stop - start + step - 1) / step)).map (fun i => start + step * i)

/-! ## The shared mirror pass (src/systems/maze_generator.py and the
`_mirror` methods of maze types 1, 3, 4) -/

/-- The mirroring loop shared by `MazeGenerator._mirror` (`count = gs // 2`),
`MazeType1._mirror` and `MazeType3._mirror` (`count = gs // 2 + 1`) and
`MazeType4._mirror` (`count = gs // 2`): for each `i < count` copy column
(row) `i` onto column (row) `gs - 1 - i`. -/
def mirrorLoop (gs count : Nat) (isVertical : Bool) (g : Grid) : Grid :=
  (List.range count).foldl (fun g i =>
    (List.range gs).foldl (fun g j =>
      if isVertical then setCell g j (gs - 1 - i) (g j i)
      else setCell g (gs - 1 - i) j (g i j)) g) g

/-! ## MazeType1 (src/systems/maze_type_1.py): scattered walls -/

/-- `MazeType1._place_segment`: write `len` cells of `cellType` along the
line starting at `start`, stopping at the grid edge (the Python `break`
skips exactly the out-of-range tail), and return `start + len` regardless. -/
def placeSegment (gs line : Nat) (isVertical : Bool) (g : Grid)
    (start : Nat) (cellType len : Nat) : Grid × Nat :=
  let g' := (List.range len).foldl (fun g i =>
    if gs ≤ start + i then g
    else if isVertical then setCell g (start + i) line cellType
    else setCell g line (start + i) cellType) g
  (g', start + len)

/-- The `while position < grid_size:` loop of `MazeType1._fill_line`; each
iteration advances the position by at least one (the `PATH` segment has
length 1), so fuel `gs + 1` always suffices. -/
def fillLineLoop (gs line : Nat) (isVertical startWithPath : Bool)
    (minW maxW : Nat) (rs : RS) :
    Nat → Grid → Nat → Nat → Grid × Nat
  | 0, g, _, k => (g, k)
  | fuel + 1, g, pos, k =>
    if pos < gs then
      if startWithPath then
        let (g1, p1) := placeSegment gs line isVertical g pos PATH 1
        let len := rsRandint rs k minW maxW
        let (g2, p2) := placeSegment gs line isVertical g1 p1 WALL len
        fillLineLoop gs line isVertical startWithPath minW maxW rs fuel g2 p2 (k + 1)
      else
        let len := rsRandint rs k minW maxW
        let (g1, p1) := placeSegment gs line isVertical g pos WALL len
        let (g2, p2) := placeSegment gs line isVertical g1 p1 PATH 1
        fillLineLoop gs line isVertical startWithPath minW maxW rs fuel g2 p2 (k + 1)
    else (g, k)

/-- `MazeType1._fill_line`. -/
def fillLine (gs line : Nat) (isVertical : Bool) (minW maxW : Nat) (rs : RS)
    (g : Grid) (k : Nat) : Grid × Nat :=
  let swp := rsBool rs k
  fillLineLoop gs line isVertical swp minW maxW rs (gs + 1) g 0 (k + 1)

/-- `MazeType1.generate(grid_size)` (with `_scatter_walls` inlined): start
from an all-`PATH` grid, fill every other line of the half-region, then
mirror with `half_size = gs // 2 + 1`. -/
def genType1 (minW maxW : Nat) (isVertical : Bool) (rs : RS) (gs : Nat) : Grid :=
  let halfSize := gs / 2 + 1
  let gk := (pyRange 1 halfSize 2).foldl (fun (gk : Grid × Nat) line =>
    fillLine gs line isVertical minW maxW rs gk.1 gk.2) (allPathGrid, 0)
  mirrorLoop gs halfSize isVertical gk.1

/-! ## MazeType2 (src/systems/maze_type_2.py): binary tree -/

/-- `MazeType2._carve_passage` (the `grid_size` argument is unused in the
source as well). -/
def carvePassage (_gs halfSize : Nat) (isVertical : Bool) (rs : RS)
    (g : Grid) (x y k : Nat) : Grid × Nat :=
  let canNorth := 2 ≤ y
  let canWest := 2 ≤ x
  let canWest := if isVertical ∧ halfSize ≤ x then false else canWest
  let canNorth := if ¬ isVertical ∧ halfSize ≤ y then false else canNorth
  if ¬ canNorth ∧ ¬ canWest then (g, k)
  else
    let gn := if canNorth ∧ canWest then (rsCoin rs k, k + 1)
              else (canNorth, k)
    if gn.1 then (setCell g (y - 1) x PATH, gn.2)
    else (setCell g y (x - 1) PATH, gn.2)

/-- The double scan of `MazeType2.generate` before mirroring: carve every
even-coordinate cell of the half-region and one passage from it. -/
def genType2Core (isVertical : Bool) (rs : RS) (gs : Nat) : Grid × Nat :=
  let halfSize := gs / 2 + 1
  (pyRange 0 gs 2).foldl (fun (gk : Grid × Nat) y =>
    (pyRange 0 gs 2).foldl (fun (gk : Grid × Nat) x =>
      if isVertical ∧ halfSize ≤ x then gk
      else if ¬ isVertical ∧ halfSize ≤ y then gk
      else
        let g' := setCell gk.1 y x PATH
        carvePassage gs halfSize isVertical rs g' x y gk.2) gk)
    ((fun _ _ => WALL), 0)

/-- `MazeType2._connect_mirror_line`: probabilistically open center-line
cells between facing `PATH` half-cells. -/
def connectMirrorLine (isVertical : Bool) (rs : RS) (gs : Nat)
    (g : Grid) (k : Nat) : Grid × Nat :=
  let ml := gs / 2
  if isVertical then
    (pyRange 1 (gs - 1) 2).foldl (fun (gk : Grid × Nat) y =>
      let lx : Int := (ml : Int) - 1
      let rx : Int := (ml : Int) + 1
      if 0 ≤ lx ∧ lx < (gs : Int) ∧ 0 ≤ rx ∧ rx < (gs : Int)
          ∧ gk.1 y lx.toNat = PATH ∧ gk.1 y rx.toNat = PATH then
        if rsCoin rs gk.2 then (setCell gk.1 y ml PATH, gk.2 + 1)
        else (gk.1, gk.2 + 1)
      else gk) (g, k)
  else
    (pyRange 1 (gs - 1) 2).foldl (fun (gk : Grid × Nat) x =>
      let ty : Int := (ml : Int) - 1
      let by' : Int := (ml : Int) + 1
      if 0 ≤ ty ∧ ty < (gs : Int) ∧ 0 ≤ by' ∧ by' < (gs : Int)
          ∧ gk.1 ty.toNat x = PATH ∧ gk.1 by'.toNat x = PATH then
        if rsCoin rs gk.2 then (setCell gk.1 ml x PATH, gk.2 + 1)
        else (gk.1, gk.2 + 1)
      else gk) (g, k)

/-- `MazeType2.generate(grid_size)`: carve, mirror (`_mirror` of the base
class, `half_count = gs // 2`), then run the mirror-seam connector. -/
def genType2 (isVertical : Bool) (rs : RS) (gs : Nat) : Grid :=
  let gk := genType2Core isVertical rs gs
  let g2 := mirrorLoop gs (gs / 2) isVertical gk.1
  (connectMirrorLine isVertical rs gs g2 gk.2).1

/-! ## MazeType3 (src/systems/maze_type_3.py): hunt and kill -/

/-- The visited-tracking grid of `MazeType3`. -/
abbrev Vis := Nat → Nat → Bool

/-- Mark a visited cell. -/
def setVis (v : Vis) (j i : Nat) : Vis :=
  fun j' i' => if j' = j ∧ i' = i then true else v j' i'

/-- Cell directions at 2-cell distance, in N, E, S, W order. -/
def t3dirs : List Pos := [(0, -2), (2, 0), (0, 2), (-2, 0)]

/-- `MazeType3._is_valid_neighbor`: in bounds, both coordinates odd, and in
the generation half. -/
def t3ValidNeighbor (gs halfSize : Nat) (isVertical : Bool) (x y : Int) : Bool :=
  decide (0 ≤ x ∧ x < (gs : Int) ∧ 0 ≤ y ∧ y < (gs : Int))
    && !(decide (x % 2 = 0) || decide (y % 2 = 0))
    && (if isVertical then decide (x < (halfSize : Int))
        else decide (y < (halfSize : Int)))

/-- `MazeType3._get_unvisited_neighbors` / `_get_visited_neighbors`
(selected by `wantVisited`). -/
def t3Neighbors (gs halfSize : Nat) (isVertical : Bool) (v : Vis)
    (wantVisited : Bool) (x y : Int) : List Pos :=
  t3dirs.filterMap (fun d =>
    let n : Pos := (x + d.1, y + d.2)
    if t3ValidNeighbor gs halfSize isVertical n.1 n.2
        && (v n.2.toNat n.1.toNat == wantVisited) then some n else none)

/-- `MazeType3._random_walk`: walk to random unvisited neighbours, carving
the wall between and the neighbour itself, until stuck.  Each step visits a
new cell, so fuel `gs * gs + 1` always suffices. -/
def t3Walk (gs halfSize : Nat) (isVertical : Bool) (rs : RS) :
    Nat → Grid → Vis → Int → Int → Nat → Grid × Vis × Int × Int × Nat
  | 0, g, v, x, y, k => (g, v, x, y, k)
  | fuel + 1, g, v, x, y, k =>
    let nbrs := t3Neighbors gs halfSize isVertical v false x y
    if nbrs.isEmpty then (g, v, x, y, k)
    else
      let n := rsChoice rs k nbrs (0, 0)
      let wx := (x + n.1) / 2
      let wy := (y + n.2) / 2
      let g := setCell g wy.toNat wx.toNat PATH
      let v := setVis v n.2.toNat n.1.toNat
      let g := setCell g n.2.toNat n.1.toNat PATH
      t3Walk gs halfSize isVertical rs fuel g v n.1 n.2 (k + 1)

/-- The scan of `MazeType3._hunt`: the first (row-major over odd
coordinates) unvisited in-area cell having at least one visited neighbour,
together with that neighbour list. -/
def t3HuntScan (gs halfSize : Nat) (isVertical : Bool) (v : Vis) :
    Option (Nat × Nat × List Pos) :=
  (pyRange 1 gs 2).findSome? (fun y =>
    (pyRange 1 gs 2).findSome? (fun x =>
      if isVertical ∧ ¬ (x < halfSize) then none
      else if ¬ isVertical ∧ ¬ (y < halfSize) then none
      else if v y x then none
      else
        let vn := t3Neighbors gs halfSize isVertical v true x y
        if vn.isEmpty then none else some (x, y, vn)))

/-- `MazeType3._hunt_and_kill`: alternate walk and hunt phases until the
hunt finds no cell.  Each hunt success visits a new cell, so fuel
`gs * gs + 1` always suffices. -/
def t3Loop (gs halfSize : Nat) (isVertical : Bool) (rs : RS) :
    Nat → Grid → Vis → Int → Int → Nat → Grid × Vis × Nat
  | 0, g, v, _, _, k => (g, v, k)
  | fuel + 1, g, v, x, y, k =>
    match t3Walk gs halfSize isVertical rs (gs * gs + 1) g v x y k with
    | (g, v, x', y', k) =>
      match t3HuntScan gs halfSize isVertical v with
      | none =>
        -- the walk end position is dropped once the hunt fails
        let _ := (x', y')
        (g, v, k)
      | some (hx, hy, vn) =>
        let n := rsChoice rs k vn (0, 0)
        let wx := ((hx : Int) + n.1) / 2
        let wy := ((hy : Int) + n.2) / 2
        let g := setCell g wy.toNat wx.toNat PATH
        let v := setVis v hy hx
        let g := setCell g hy hx PATH
        t3Loop gs halfSize isVertical rs fuel g v (hx : Int) (hy : Int) (k + 1)

/-- The pre-mirror phase of `MazeType3.generate`: all-wall grid, random odd
start cell (two draws, x then y), then hunt-and-kill.  Returns the carved
grid and the next draw index. -/
def genType3Core (isVertical : Bool) (rs : RS) (gs : Nat) : Grid × Nat :=
  let halfSize := gs / 2 + 1
  let cx := if isVertical then rsRandrange2 rs 0 1 halfSize
            else rsRandrange2 rs 0 1 gs
  let cy := if isVertical then rsRandrange2 rs 1 1 gs
            else rsRandrange2 rs 1 1 halfSize
  let v := setVis (fun _ _ => false) cy cx
  let g := setCell (fun _ _ => WALL) cy cx PATH
  match t3Loop gs halfSize isVertical rs (gs * gs + 1) g v (cx : Int) (cy : Int) 2 with
  | (g, _, k) => (g, k)

/-- `MazeType3.generate(grid_size)`: hunt-and-kill on the half-region, then
mirror with `half_size = gs // 2 + 1` — and nothing after the mirror. -/
def genType3 (isVertical : Bool) (rs : RS) (gs : Nat) : Grid :=
  mirrorLoop gs (gs / 2 + 1) isVertical (genType3Core isVertical rs gs).1

/-- Modelled from the spec: the pipeline the spec claims for MazeType3 —
"then mirror, then run the same mirror-seam connector pass as BinaryTree" —
i.e. `generate` followed by `MazeType2._connect_mirror_line` on the
mirrored grid (continuing the same draw stream). -/
def genType3Claimed (isVertical : Bool) (rs : RS) (gs : Nat) : Grid :=
  let ck := genType3Core isVertical rs gs
  let g2 := mirrorLoop gs (gs / 2 + 1) isVertical ck.1
  (connectMirrorLine isVertical rs gs g2 ck.2).1

/-! ## MazeType4 (src/systems/maze_type_4.py): sidewinder -/

/-- `MazeType4._initialize_cells`. -/
def t4Init (gs halfSize : Nat) (isVertical : Bool) : Grid :=
  (pyRange 0 gs 2).foldl (fun g y =>
    (pyRange 0 gs 2).foldl (fun g x =>
      if isVertical then (if x < halfSize then setCell g y x PATH else g)
      else (if y < halfSize then setCell g y x PATH else g)) g)
    (fun _ _ => WALL)

/-- One run-step of `_sidewinder_vertical` for column `x` at row `y`:
extend the run, then either close it (carving west from a random member) or
carve south.  `random.choice` is short-circuited away when at the bottom
edge, exactly as in `at_bottom or random.choice([True, False])`. -/
def t4StepV (gs : Nat) (rs : RS) (x : Nat) (st : Grid × Nat × List Nat)
    (y : Nat) : Grid × Nat × List Nat :=
  let g := st.1
  let k := st.2.1
  let run := st.2.2 ++ [y]
  let atBottom := gs - 2 ≤ y
  let ck := if atBottom then (true, k) else (rsBool rs k, k + 1)
  if ck.1 then
    let member := rsChoice rs ck.2 run 0
    let g := if 1 ≤ x then setCell g member (x - 1) PATH else g
    (g, ck.2 + 1, [])
  else
    let g := if y + 1 < gs then setCell g (y + 1) x PATH else g
    (g, ck.2, run)

/-- `MazeType4._sidewinder_vertical`: first column gets all south passages;
the remaining even columns of the half-region run the sidewinder. -/
def t4SidewinderV (gs halfSize : Nat) (rs : RS) (g : Grid) (k : Nat) :
    Grid × Nat :=
  let g := (pyRange 0 (gs - 2) 2).foldl (fun g y =>
    if y + 1 < gs then setCell g (y + 1) 0 PATH else g) g
  (pyRange 2 halfSize 2).foldl (fun (gk : Grid × Nat) x =>
    let st := (pyRange 0 gs 2).foldl (t4StepV gs rs x) (gk.1, gk.2, [])
    (st.1, st.2.1)) (g, k)

/-- One run-step of `_sidewinder_horizontal` for row `y` at column `x`. -/
def t4StepH (gs : Nat) (rs : RS) (y : Nat) (st : Grid × Nat × List Nat)
    (x : Nat) : Grid × Nat × List Nat :=
  let g := st.1
  let k := st.2.1
  let run := st.2.2 ++ [x]
  let atEast := gs - 2 ≤ x
  let ck := if atEast then (true, k) else (rsBool rs k, k + 1)
  if ck.1 then
    let member := rsChoice rs ck.2 run 0
    let g := if 1 ≤ y then setCell g (y - 1) member PATH else g
    (g, ck.2 + 1, [])
  else
    let g := if x + 1 < gs then setCell g y (x + 1) PATH else g
    (g, ck.2, run)

/-- `MazeType4._sidewinder_horizontal`. -/
def t4SidewinderH (gs halfSize : Nat) (rs : RS) (g : Grid) (k : Nat) :
    Grid × Nat :=
  let g := (pyRange 0 (gs - 2) 2).foldl (fun g x =>
    if x + 1 < gs then setCell g 0 (x + 1) PATH else g) g
  (pyRange 2 halfSize 2).foldl (fun (gk : Grid × Nat) y =>
    let st := (pyRange 0 gs 2).foldl (t4StepH gs rs y) (gk.1, gk.2, [])
    (st.1, st.2.1)) (g, k)

/-- The pre-mirror phase of `MazeType4.generate`. -/
def genType4Core (isVertical : Bool) (rs : RS) (gs : Nat) : Grid × Nat :=
  let halfSize := gs / 2 + 1
  let g := t4Init gs halfSize isVertical
  if isVertical then t4SidewinderV gs halfSize rs g 0
  else t4SidewinderH gs halfSize rs g 0

/-- `MazeType4.generate(grid_size)`: initialise, sidewinder, then mirror
with `mirror_count = gs // 2` — and nothing after the mirror. -/
def genType4 (isVertical : Bool) (rs : RS) (gs : Nat) : Grid :=
  mirrorLoop gs (gs / 2) isVertical (genType4Core isVertical rs gs).1

/-- Modelled from the spec: the pipeline the spec claims for MazeType4 —
"then mirrors and connects across the seam" — i.e. `generate` followed by
`MazeType2._connect_mirror_line` (continuing the same draw stream). -/
def genType4Claimed (isVertical : Bool) (rs : RS) (gs : Nat) : Grid :=
  let ck := genType4Core isVertical rs gs
  let g2 := mirrorLoop gs (gs / 2) isVertical ck.1
  (connectMirrorLine isVertical rs gs g2 ck.2).1

/-! ## Concrete grids used in counterexamples and witnesses -/

/-- Build a grid from a row-major list of rows; absent cells read as `WALL`. -/
def gridOfRows (rows : List (List Nat)) : Grid :=
  fun j i => ((rows.getD j []).getD i WALL)

/-- An 11-by-11 grid (0 = `PATH`, 1 = `WALL`) on which `find_path` returns a
path that is two moves longer than a shortest path. -/
def astarCexGrid : Grid := gridOfRows
  [[0, 0, 0, 1, 0, 0, 0, 0, 0, 0, 0],
   [0, 1, 0, 1, 0, 1, 1, 1, 1, 1, 0],
   [0, 1, 0, 0, 0, 0, 0, 0, 0, 1, 0],
   [0, 1, 0, 1, 1, 1, 1, 1, 0, 1, 0],
   [0, 1, 0, 0, 0, 1, 0, 0, 0, 0, 0],
   [0, 1, 1, 1, 0, 1, 0, 1, 1, 1, 1],
   [0, 1, 0, 0, 0, 0, 0, 1, 1, 1, 1],
   [0, 1, 0, 1, 1, 1, 1, 1, 1, 1, 1],
   [0, 0, 0, 1, 1, 1, 1, 1, 1, 1, 1],
   [1, 1, 1, 1, 1, 1, 1, 1, 1, 1, 1],
   [1, 1, 1, 1, 1, 1, 1, 1, 1, 1, 1]]

/-- The 20-move path that `find_path` actually returns on `astarCexGrid`
from `(1, 8)` to `(7, 0)`. -/
def astarCexReturned : List Pos :=
  [(1, 8), (2, 8), (2, 7), (2, 6), (3, 6), (4, 6), (5, 6), (6, 6), (6, 5),
   (6, 4), (7, 4), (8, 4), (9, 4), (10, 4), (10, 3), (10, 2), (10, 1),
   (10, 0), (9, 0), (8, 0), (7, 0)]

/-- An 18-move walk through `astarCexGrid` from `(1, 8)` to `(7, 0)`,
strictly shorter than the path `find_path` returns. -/
def astarCexShorter : List Pos :=
  [(1, 8), (2, 8), (2, 7), (2, 6), (3, 6), (4, 6), (4, 5), (4, 4), (3, 4),
   (2, 4), (2, 3), (2, 2), (3, 2), (4, 2), (4, 1), (4, 0), (5, 0), (6, 0),
   (7, 0)]

/-- The all-zero draw stream. -/
def rsZeros : RS := fun _ => 0

/-- The draw stream 1, 0, 0, 0, ... -/
def rsOneThenZeros : RS := fun n => if n = 0 then 1 else 0

/-- A 5-by-5 grid that is all wall except the single walkable cell `(4, 0)`,
which lies at BFS hop distance 4 from the corner `(0, 0)`. -/
def nearestCexGrid : Grid := gridOfRows
  [[1, 1, 1, 1, 0],
   [1, 1, 1, 1, 1],
   [1, 1, 1, 1, 1],
   [1, 1, 1, 1, 1],
   [1, 1, 1, 1, 1]]

/-- A 2-by-2 grid whose top row is `PATH` and bottom row `WALL`: both path
cells are dead ends, but no direction has a wall with a non-wall cell
beyond, so a `remove_dead_ends` pass carves nothing and the loop spins. -/
def looperDomino : Grid := gridOfRows [[0, 0], [1, 1]]

/-- A 5-by-5 grid with a U-shaped corridor whose end `(1, 1)` is a dead end
fixable by carving the wall `(2, 1)` (the beyond-cell `(3, 1)` is on the
corridor). -/
def looperSnake : Grid := gridOfRows
  [[1, 1, 1, 1, 1],
   [1, 0, 1, 0, 1],
   [1, 0, 1, 0, 1],
   [1, 0, 0, 0, 1],
   [1, 1, 1, 1, 1]]

/-! ## Invariants and measure for the validator BFS (claim C8) -/

/-- All in-bounds grid positions. -/
def validCells (gs : Nat) : Finset Pos :=
  Finset.Icc (0 : Int) ((gs : Int) - 1) ×ˢ Finset.Icc (0 : Int) ((gs : Int) - 1)

/-- The number of valid path cells not yet visited — the decreasing part of
the BFS termination measure. -/
def unvisitedCount (g : Grid) (gs : Nat) (visited : List Pos) : Nat :=
  ((validCells gs).filter
    (fun p => isValidPath g gs p.1 p.2 = true ∧ p ∉ visited)).card

/-- Loop invariant of the `is_connected` BFS: the queue is a duplicate-free
subset of the visited set, the start has been visited, every visited cell is
reachable, and every processed cell (visited but no longer queued) has been
fully expanded — none of its neighbours is `end`, and its valid neighbours
are all visited. -/
def ConnInv (g : Grid) (gs : Nat) (s e : Pos)
    (visited queue : List Pos) : Prop :=
  (∀ p ∈ queue, p ∈ visited)
    ∧ queue.Nodup
    ∧ s ∈ visited
    ∧ (∀ p ∈ visited, Reach g gs s p)
    ∧ (∀ p ∈ visited, p ∉ queue →
        ∀ d ∈ dirsNESW, ((p.1 + d.1, p.2 + d.2) : Pos) ≠ e
          ∧ (isValidPath g gs (p.1 + d.1) (p.2 + d.2) = true →
              ((p.1 + d.1, p.2 + d.2) : Pos) ∈ visited))

/-!
# Theorems

One theorem per claim of the specification audit, with counterexamples,
amended statements and witnesses where called for.
-/

/-! ## Helper lemmas about the looper -/

/-- One `flcwStep` either keeps the accumulator's direction or selects the
scanned direction, and then only under its guard. -/
lemma flcwStep_cases (g : Grid) (gs : Nat) (p : Pos) (acc : Option Pos × Int)
    (d : Pos) :
    (flcwStep g gs p acc d).1 = acc.1
      ∨ ((flcwStep g gs p acc d).1 = some d ∧ flcwGuard g gs p d) := by
  unfold flcwStep
  split_ifs with h1 h2
  · exact Or.inr ⟨rfl, h1⟩
  · exact Or.inl rfl
  · exact Or.inl rfl

/-- The direction scan returns either the initial accumulator's direction or
some scanned direction whose guard holds. -/
lemma flcw_foldl_spec (g : Grid) (gs : Nat) (p : Pos) :
    ∀ (l : List Pos) (acc : Option Pos × Int),
      ((l.foldl (flcwStep g gs p) acc).1 = acc.1)
        ∨ ∃ d ∈ l, (l.foldl (flcwStep g gs p) acc).1 = some d
            ∧ flcwGuard g gs p d := by
  intro l
  induction l with
  | nil => intro _; exact Or.inl rfl
  | cons d t ih =>
    intro acc
    rcases ih (flcwStep g gs p acc d) with h | ⟨d', hd', he, hg⟩
    · rcases flcwStep_cases g gs p acc d with h0 | ⟨h0, hg⟩
      · exact Or.inl (by simpa [List.foldl_cons, h0] using h)
      · refine Or.inr ⟨d, List.mem_cons_self .., ?_, hg⟩
        simpa [List.foldl_cons, h0] using h
    · exact Or.inr ⟨d', List.mem_cons_of_mem _ hd',
        by simpa [List.foldl_cons] using he, hg⟩

/-- A direction returned by `find_longest_cycle_wall` is one of the four
scan directions and satisfies its guard. -/
lemma flcw_some_guard {g : Grid} {gs : Nat} {p d : Pos}
    (h : find_longest_cycle_wall g gs p = some d) :
    d ∈ dirsNESW ∧ flcwGuard g gs p d := by
  unfold find_longest_cycle_wall at h
  rcases flcw_foldl_spec g gs p dirsNESW (none, -1) with h0 | ⟨d', hmem, he, hg⟩
  · rw [h0] at h; cases h
  · have hd : d' = d := by
      have := he.symm.trans h
      injection this
    subst hd
    exact ⟨hmem, hg⟩

/-- Membership in `find_dead_ends` characterised: an in-bounds non-wall cell
with exactly one open neighbour. -/
lemma mem_find_dead_ends {g : Grid} {gs : Nat} {p : Pos} :
    p ∈ find_dead_ends g gs ↔
      isValidGridCell gs p.1 p.2 = true
        ∧ ¬ (mazeIsWall g gs p.1 p.2 = true)
        ∧ openCount g gs p.1 p.2 = 1 := by
  unfold find_dead_ends
  constructor
  · intro hmem
    rw [List.mem_flatten] at hmem
    obtain ⟨l, hl, hpl⟩ := hmem
    rw [List.mem_map] at hl
    obtain ⟨y, hy, rfl⟩ := hl
    rw [List.mem_range] at hy
    rw [List.mem_filterMap] at hpl
    obtain ⟨x, hx, hfx⟩ := hpl
    rw [List.mem_range] at hx
    split_ifs at hfx with hc
    · injection hfx with hfx
      subst hfx
      dsimp only
      refine ⟨?_, hc.1, hc.2⟩
      unfold isValidGridCell
      rw [decide_eq_true_iff]
      exact ⟨Int.natCast_nonneg x, by exact_mod_cast hx,
        Int.natCast_nonneg y, by exact_mod_cast hy⟩
  · rintro ⟨hval, hwall, hcount⟩
    unfold isValidGridCell at hval
    rw [decide_eq_true_iff] at hval
    obtain ⟨h1, h2, h3, h4⟩ := hval
    rw [List.mem_flatten]
    refine ⟨_, List.mem_map.mpr ⟨p.2.toNat,
      List.mem_range.mpr (by omega), rfl⟩, ?_⟩
    rw [List.mem_filterMap]
    refine ⟨p.1.toNat, List.mem_range.mpr (by omega), ?_⟩
    have e1 : ((p.1.toNat : Int)) = p.1 := Int.toNat_of_nonneg h1
    have e2 : ((p.2.toNat : Int)) = p.2 := Int.toNat_of_nonneg h3
    rw [e1, e2, if_pos ⟨hwall, hcount⟩]

/-- `mazeIsWall` is unchanged by a write at different coordinates. -/
lemma mazeIsWall_setCell_ne (g : Grid) (gs : Nat) (j i v : Nat) {x y : Int}
    (hne : x ≠ (i : Int) ∨ y ≠ (j : Int)) :
    mazeIsWall (setCell g j i v) gs x y = mazeIsWall g gs x y := by
  unfold mazeIsWall setCell
  by_cases hb : 0 ≤ x ∧ x < (gs : Int) ∧ 0 ≤ y ∧ y < (gs : Int)
  · rw [if_pos hb, if_pos hb]
    have hx : ((x.toNat : Int)) = x := Int.toNat_of_nonneg hb.1
    have hy : ((y.toNat : Int)) = y := Int.toNat_of_nonneg hb.2.2.1
    have hcond : ¬ (y.toNat = j ∧ x.toNat = i) := by
      rintro ⟨rfl, rfl⟩
      rcases hne with h | h
      · exact h hx.symm
      · exact h hy.symm
    rw [if_neg hcond]
  · rw [if_neg hb, if_neg hb]

/-- Two distinct members force length at least two. -/
lemma two_le_length_of_mem {α : Type} {a b : α} {l : List α}
    (ha : a ∈ l) (hb : b ∈ l) (hne : a ≠ b) : 2 ≤ l.length := by
  match l with
  | [] => cases ha
  | [x] =>
    rw [List.mem_singleton] at ha hb
    exact absurd (ha.trans hb.symm) hne
  | x :: y :: t => simp only [List.length_cons]; omega

/-- Two qualifying distinct directions force an open count of at least two. -/
lemma openCount_two_mem (g' : Grid) (gs : Nat) (x y : Int) {a b : Pos}
    (ha : a ∈ dirsNESW) (hb : b ∈ dirsNESW) (hne : a ≠ b)
    (hPa : (isValidGridCell gs (x + a.1) (y + a.2)
      && !mazeIsWall g' gs (x + a.1) (y + a.2)) = true)
    (hPb : (isValidGridCell gs (x + b.1) (y + b.2)
      && !mazeIsWall g' gs (x + b.1) (y + b.2)) = true) :
    2 ≤ openCount g' gs x y :=
  two_le_length_of_mem (List.mem_filter.mpr ⟨ha, hPa⟩)
    (List.mem_filter.mpr ⟨hb, hPb⟩) hne

/-- Each cell of the grid after one carve pass holds its old value or `PATH`
(the pass only ever writes `PATH`). -/
lemma carveDeadEnds_pointwise (gs : Nat) :
    ∀ (de : List Pos) (g : Grid) (j i : Nat),
      carveDeadEnds gs g de j i = g j i ∨ carveDeadEnds gs g de j i = PATH := by
  intro de
  induction de with
  | nil => intro g j i; exact Or.inl rfl
  | cons d t ih =>
    intro g j i
    unfold carveDeadEnds
    cases hf : find_longest_cycle_wall g gs d with
    | none => exact ih g j i
    | some dir =>
      obtain ⟨dx, dy⟩ := dir
      dsimp only
      rcases ih (setCell g (d.2 + dy).toNat (d.1 + dx).toNat PATH) j i
        with h1 | h1
      · rw [h1]
        unfold setCell
        split_ifs with hc
        · exact Or.inr rfl
        · exact Or.inl rfl
      · exact Or.inr h1

/-- Each cell of the grid returned by `remove_dead_ends` holds its original
value or `PATH`. -/
lemma remove_dead_ends_pointwise (gs : Nat) :
    ∀ (fuel : Nat) (g g' : Grid), remove_dead_ends gs fuel g = some g' →
      ∀ j i, g' j i = g j i ∨ g' j i = PATH := by
  intro fuel
  induction fuel with
  | zero => intro g g' h; cases h
  | succ n ih =>
    intro g g' h
    unfold remove_dead_ends at h
    split_ifs at h with hde
    · injection h with h
      subst h
      exact fun j i => Or.inl rfl
    · intro j i
      rcases ih _ _ h j i with h1 | h1
      · rw [h1]
        exact carveDeadEnds_pointwise gs _ g j i
      · exact Or.inr h1

/-- The grid returned by `remove_dead_ends` has an empty dead-end scan
(that emptiness is exactly the loop's exit condition). -/
lemma remove_dead_ends_no_dead_ends (gs : Nat) :
    ∀ (fuel : Nat) (g g' : Grid), remove_dead_ends gs fuel g = some g' →
      find_dead_ends g' gs = [] := by
  intro fuel
  induction fuel with
  | zero => intro g g' h; cases h
  | succ n ih =>
    intro g g' h
    unfold remove_dead_ends at h
    split_ifs at h with hde
    · injection h with h
      subst h
      exact List.isEmpty_iff.mp hde
    · exact ih _ _ h

/-! ## Helper lemmas about the mirror pass -/

/-- Pointwise description of the inner row loop of the vertical mirror:
rows `j' < n` have column `mi` overwritten with the (original) column-`i`
value; everything else is untouched.  The value read from the evolving grid
equals the original value because a row's read happens before or at that
row's single write. -/
lemma mirrorInnerV (i mi : Nat) (g : Grid) :
    ∀ (n j' i' : Nat),
      ((List.range n).foldl (fun g j => setCell g j mi (g j i)) g) j' i'
        = if i' = mi ∧ j' < n then g j' i else g j' i' := by
  intro n
  induction n with
  | zero =>
    intro j' i'
    simp
  | succ m ih =>
    intro j' i'
    rw [List.range_succ, List.foldl_append, List.foldl_cons, List.foldl_nil]
    have hread : ((List.range m).foldl (fun g j => setCell g j mi (g j i)) g) m i
        = g m i := by
      rw [ih]
      split_ifs <;> rfl
    show (if j' = m ∧ i' = mi then
        ((List.range m).foldl (fun g j => setCell g j mi (g j i)) g) m i
      else ((List.range m).foldl (fun g j => setCell g j mi (g j i)) g) j' i')
      = if i' = mi ∧ j' < m + 1 then g j' i else g j' i'
    by_cases hc : j' = m ∧ i' = mi
    · rw [if_pos hc, hread]
      obtain ⟨rfl, rfl⟩ := hc
      rw [if_pos ⟨rfl, Nat.lt_succ_self j'⟩]
    · rw [if_neg hc, ih]
      by_cases h1 : i' = mi ∧ j' < m
      · have hx : i' = mi ∧ j' < m + 1 := ⟨h1.1, Nat.lt_succ_of_lt h1.2⟩
        rw [if_pos h1, if_pos hx]
      · rw [if_neg h1]
        by_cases h2 : i' = mi ∧ j' < m + 1
        · have hj : j' = m := by
            rcases Nat.lt_succ_iff_lt_or_eq.mp h2.2 with h3 | h3
            · exact absurd ⟨h2.1, h3⟩ h1
            · exact h3
          exact absurd ⟨hj, h2.1⟩ hc
        · rw [if_neg h2]

/-- Pointwise description of the whole vertical mirror pass with
`count ≤ gs / 2 + 1` on an odd-sized grid: within the grid's rows, columns
of the form `gs - 1 - i` for `i < count` hold the mirrored original value,
and all other cells are untouched. -/
lemma mirrorLoopV (gs : Nat) (hodd : gs % 2 = 1) :
    ∀ (count : Nat), count ≤ gs / 2 + 1 → ∀ (g : Grid) (j' i' : Nat), j' < gs →
      mirrorLoop gs count true g j' i'
        = if ∃ i < count, i' = gs - 1 - i then g j' (gs - 1 - i')
          else g j' i' := by
  intro count
  induction count with
  | zero =>
    intro _ g j' i' hj
    simp [mirrorLoop]
  | succ c ih =>
    intro hc g j' i' hj
    have hstep : mirrorLoop gs (c + 1) true g
        = (List.range gs).foldl
            (fun g j => setCell g j (gs - 1 - c) (g j c))
            (mirrorLoop gs c true g) := by
      unfold mirrorLoop
      rw [List.range_succ, List.foldl_append, List.foldl_cons, List.foldl_nil]
      simp
    rw [hstep, mirrorInnerV]
    have hprev := ih (by omega) g
    have hreadc : ∀ jr, jr < gs → mirrorLoop gs c true g jr c = g jr c := by
      intro jr hjr
      rw [hprev jr c hjr]
      have hnone : ¬ ∃ i < c, c = gs - 1 - i := by
        rintro ⟨i, hi, he⟩
        omega
      rw [if_neg hnone]
    by_cases hcase : i' = gs - 1 - c ∧ j' < gs
    · rw [if_pos hcase]
      rw [hreadc j' hcase.2]
      have hex : ∃ i < c + 1, i' = gs - 1 - i := ⟨c, by omega, hcase.1⟩
      rw [if_pos hex]
      have : gs - 1 - i' = c := by omega
      rw [this]
    · rw [if_neg hcase]
      rw [hprev j' i' hj]
      by_cases h1 : ∃ i < c, i' = gs - 1 - i
      · obtain ⟨i, hi, rfl⟩ := h1
        have ha : ∃ i0 < c + 1, gs - 1 - i = gs - 1 - i0 := ⟨i, by omega, rfl⟩
        have hb : ∃ i0 < c, gs - 1 - i = gs - 1 - i0 := ⟨i, hi, rfl⟩
        rw [if_pos ha, if_pos hb]
      · rw [if_neg h1]
        have h2 : ¬ ∃ i < c + 1, i' = gs - 1 - i := by
          rintro ⟨i, hi, rfl⟩
          rcases Nat.lt_succ_iff_lt_or_eq.mp hi with h3 | rfl
          · exact h1 ⟨i, h3, rfl⟩
          · exact hcase ⟨rfl, hj⟩
        rw [if_neg h2]

/-- The mirroring invariant: after a vertical mirror pass with
`gs / 2 ≤ count ≤ gs / 2 + 1` on an odd-sized grid, every row agrees on
columns `i` and `gs - 1 - i` for `i < gs / 2`. -/
lemma mirrorLoop_invariant (gs count : Nat) (g : Grid) (hodd : gs % 2 = 1)
    (h1 : gs / 2 ≤ count) (h2 : count ≤ gs / 2 + 1) :
    ∀ j i, j < gs → i < gs / 2 →
      mirrorLoop gs count true g j i = mirrorLoop gs count true g j (gs - 1 - i) := by
  intro j i hj hi
  rw [mirrorLoopV gs hodd count h2 g j i hj,
    mirrorLoopV gs hodd count h2 g j (gs - 1 - i) hj]
  have hli : ¬ ∃ i'' < count, i = gs - 1 - i'' := by
    rintro ⟨i'', hi'', he⟩
    omega
  have hri : ∃ i'' < count, gs - 1 - i = gs - 1 - i'' := ⟨i, by omega, rfl⟩
  rw [if_neg hli, if_pos hri]
  have : gs - 1 - (gs - 1 - i) = i := by omega
  rw [this]

/-- A fold whose every step leaves cell `(j, i)` of the carried grid
unchanged leaves it unchanged overall. -/
lemma foldl_preserves_cell {β : Type} (f : Grid × Nat → β → Grid × Nat)
    (j i : Nat) (hf : ∀ gk b, (f gk b).1 j i = gk.1 j i) :
    ∀ (l : List β) (gk : Grid × Nat), (l.foldl f gk).1 j i = gk.1 j i := by
  intro l
  induction l with
  | nil => intro gk; rfl
  | cons b t ih =>
    intro gk
    rw [List.foldl_cons, ih (f gk b), hf]

/-- The vertical seam connector only writes the center column `gs / 2`:
every other cell is unchanged. -/
lemma connectMirrorLine_offcenter (rs : RS) (gs : Nat) (g : Grid) (k : Nat)
    (j i : Nat) (hi : i ≠ gs / 2) :
    (connectMirrorLine true rs gs g k).1 j i = g j i := by
  unfold connectMirrorLine
  rw [if_pos rfl]
  exact foldl_preserves_cell _ j i (fun gk y => by
    dsimp only
    split_ifs with h1 h2
    · show setCell gk.1 y (gs / 2) PATH j i = gk.1 j i
      unfold setCell
      rw [if_neg (by rintro ⟨rfl, rfl⟩; exact hi rfl)]
    · rfl
    · rfl) (pyRange 1 (gs - 1) 2) (g, k)

/-- C1 (claim: every generator variant's output satisfies the vertical
mirroring invariant for odd grid sizes, and MazeType2's seam connector
preserves it by touching only the center column): for every draw stream,
every odd `gs`, every row `j < gs` and every column `i < gs / 2`, all four
generators produce grids with `cell[j][i] = cell[j][gs - 1 - i]`.  Types 1
and 3 mirror with `count = gs / 2 + 1` (the extra index is the center
column, copied onto itself), types 2 and 4 with `count = gs / 2`; the
type-2 connector afterwards writes only column `gs / 2`, which is neither
`i` nor `gs - 1 - i`. -/
theorem c1_mirror_invariant (rs : RS) (gs minW maxW : Nat)
    (hodd : gs % 2 = 1) :
    ∀ j i, j < gs → i < gs / 2 →
      (genType1 minW maxW true rs gs j i
          = genType1 minW maxW true rs gs j (gs - 1 - i))
      ∧ (genType2 true rs gs j i = genType2 true rs gs j (gs - 1 - i))
      ∧ (genType3 true rs gs j i = genType3 true rs gs j (gs - 1 - i))
      ∧ (genType4 true rs gs j i = genType4 true rs gs j (gs - 1 - i)) := by
  intro j i hj hi
  have hne1 : i ≠ gs / 2 := by omega
  have hne2 : gs - 1 - i ≠ gs / 2 := by omega
  refine ⟨?_, ?_, ?_, ?_⟩
  · show mirrorLoop gs (gs / 2 + 1) true _ j i
      = mirrorLoop gs (gs / 2 + 1) true _ j (gs - 1 - i)
    exact mirrorLoop_invariant gs (gs / 2 + 1) _ hodd (by omega) le_rfl j i hj hi
  · show (connectMirrorLine true rs gs
        (mirrorLoop gs (gs / 2) true (genType2Core true rs gs).1)
        (genType2Core true rs gs).2).1 j i
      = (connectMirrorLine true rs gs
        (mirrorLoop gs (gs / 2) true (genType2Core true rs gs).1)
        (genType2Core true rs gs).2).1 j (gs - 1 - i)
    rw [connectMirrorLine_offcenter rs gs _ _ j i hne1,
      connectMirrorLine_offcenter rs gs _ _ j (gs - 1 - i) hne2]
    exact mirrorLoop_invariant gs (gs / 2) _ hodd le_rfl (by omega) j i hj hi
  · show mirrorLoop gs (gs / 2 + 1) true _ j i
      = mirrorLoop gs (gs / 2 + 1) true _ j (gs - 1 - i)
    exact mirrorLoop_invariant gs (gs / 2 + 1) _ hodd (by omega) le_rfl j i hj hi
  · show mirrorLoop gs (gs / 2) true _ j i
      = mirrorLoop gs (gs / 2) true _ j (gs - 1 - i)
    exact mirrorLoop_invariant gs (gs / 2) _ hodd le_rfl (by omega) j i hj hi

/-- Witness for C1 at `gs = 5`, the all-zero stream, row 1 and column 1. -/
theorem c1_witness :
    (genType1 1 3 true rsZeros 5 1 1 = genType1 1 3 true rsZeros 5 1 3)
      ∧ (genType2 true rsZeros 5 1 1 = genType2 true rsZeros 5 1 3)
      ∧ (genType3 true rsZeros 5 1 1 = genType3 true rsZeros 5 1 3)
      ∧ (genType4 true rsZeros 5 1 1 = genType4 true rsZeros 5 1 3) :=
  c1_mirror_invariant rsZeros 5 1 3 (by decide) 1 1 (by decide) (by decide)

/-- C3 (claim: `remove_dead_ends` terminates on every finite grid):
counterexample.  On `looperDomino` — two `PATH` cells in the top row of a
2-by-2 grid — both path cells are dead ends, but `_find_longest_cycle_wall`
returns no direction for either (no wall has a non-wall cell beyond it), so
every pass carves nothing and the `while True:` loop never exits: no fuel
completes the loop. -/
theorem c3_remove_dead_ends_nonterminating :
    ¬ looperTerminates 2 looperDomino := by
  rintro ⟨fuel, hs⟩
  have key : ∀ n, remove_dead_ends 2 n looperDomino = none := by
    intro n
    induction n with
    | zero => rfl
    | succ m ih =>
      exact (rfl : remove_dead_ends 2 (m + 1) looperDomino
        = remove_dead_ends 2 m looperDomino).trans ih
  rw [key fuel] at hs
  cases hs

/-- C3 amended: the true part of the claim.  Whenever a dead end `p` has a
carvable wall direction `dir` (the guard of `_find_longest_cycle_wall`
holds for the direction it returns), the carved wall cell ends up with at
least two open neighbours — the dead end itself and the beyond-cell — so no
new dead end appears at the carved cell.  Termination, however, does not
hold in general (see the counterexample): a pass that carves nothing leaves
the dead ends in place forever. -/
theorem c3_carved_cell_degree_two (g : Grid) (gs : Nat) (p dir : Pos)
    (hmem : p ∈ find_dead_ends g gs)
    (h : find_longest_cycle_wall g gs p = some dir) :
    2 ≤ openCount (setCell g (p.2 + dir.2).toNat (p.1 + dir.1).toNat PATH) gs
        (p.1 + dir.1) (p.2 + dir.2) := by
  obtain ⟨hdmem, hgu⟩ := flcw_some_guard h
  unfold flcwGuard at hgu
  obtain ⟨hg1, hg2, hg3, hg4⟩ := hgu
  obtain ⟨hpval, hpnw, _⟩ := mem_find_dead_ends.mp hmem
  have hg1b := hg1
  have hg3b := hg3
  have hpvalb := hpval
  unfold isValidGridCell at hg1b hg3b hpvalb
  rw [decide_eq_true_iff] at hg1b hg3b hpvalb
  have hcases : dir = ((0 : Int), (-1 : Int)) ∨ dir = (1, 0) ∨ dir = (0, 1)
      ∨ dir = (-1, 0) := by
    simpa [dirsNESW] using hdmem
  have hnz : dir.1 ≠ 0 ∨ dir.2 ≠ 0 := by
    rcases hcases with rfl | rfl | rfl | rfl <;> simp
  have hnegmem : ((-dir.1, -dir.2) : Pos) ∈ dirsNESW := by
    rcases hcases with rfl | rfl | rfl | rfl <;> simp [dirsNESW]
  have hne : dir ≠ ((-dir.1, -dir.2) : Pos) := by
    intro he
    have h1 := congrArg Prod.fst he
    have h2 := congrArg Prod.snd he
    simp only at h1 h2
    rcases hnz with hz | hz <;> omega
  have hwx : (((p.1 + dir.1).toNat : Int)) = p.1 + dir.1 :=
    Int.toNat_of_nonneg hg1b.1
  have hwy : (((p.2 + dir.2).toNat : Int)) = p.2 + dir.2 :=
    Int.toNat_of_nonneg hg1b.2.2.1
  have hbeyond : mazeIsWall
      (setCell g (p.2 + dir.2).toNat (p.1 + dir.1).toNat PATH) gs
      (p.1 + dir.1 + dir.1) (p.2 + dir.2 + dir.2)
      = mazeIsWall g gs (p.1 + dir.1 + dir.1) (p.2 + dir.2 + dir.2) := by
    apply mazeIsWall_setCell_ne
    rw [hwx, hwy]
    rcases hnz with hz | hz
    · exact Or.inl (by omega)
    · exact Or.inr (by omega)
  have hself : mazeIsWall
      (setCell g (p.2 + dir.2).toNat (p.1 + dir.1).toNat PATH) gs p.1 p.2
      = mazeIsWall g gs p.1 p.2 := by
    apply mazeIsWall_setCell_ne
    rw [hwx, hwy]
    rcases hnz with hz | hz
    · exact Or.inl (by omega)
    · exact Or.inr (by omega)
  refine openCount_two_mem _ gs _ _ hdmem hnegmem hne ?_ ?_
  · rw [Bool.and_eq_true]
    refine ⟨hg3, ?_⟩
    rw [Bool.not_eq_true', hbeyond]
    exact Bool.not_eq_true _ ▸ hg4
  · have e1 : p.1 + dir.1 + -dir.1 = p.1 := by ring
    have e2 : p.2 + dir.2 + -dir.2 = p.2 := by ring
    rw [Bool.and_eq_true]
    dsimp only
    rw [e1, e2]
    refine ⟨hpval, ?_⟩
    rw [Bool.not_eq_true', hself]
    exact Bool.not_eq_true _ ▸ hpnw

/-- Witness for the amended C3: on `looperSnake` the dead end `(1, 1)`
selects direction `(1, 0)` (wall `(2, 1)`, beyond-cell `(3, 1)` at path
distance 6), and the carved wall cell has two open neighbours. -/
theorem c3_carved_cell_degree_two_witness :
    2 ≤ openCount (setCell looperSnake ((1 : Int) + 0).toNat
        ((1 : Int) + 1).toNat PATH) 5 ((1 : Int) + 1) ((1 : Int) + 0) :=
  c3_carved_cell_degree_two looperSnake 5 (1, 1) (1, 0)
    (by decide) (by decide)

/-- C4 (claim: after `remove_dead_ends` returns, no `PATH` cell has exactly
one open neighbour, and the operation is idempotent): whenever the loop
completes, the resulting grid scans clean of dead ends — no in-bounds
non-wall cell has open count 1 — and any rerun with positive fuel returns
the same grid unchanged. -/
theorem c4_remove_dead_ends_clean_and_idempotent (gs fuel : Nat)
    (g g' : Grid) (h : remove_dead_ends gs fuel g = some g') :
    (∀ x y : Int, isValidGridCell gs x y = true →
        ¬ (mazeIsWall g' gs x y = true) → openCount g' gs x y ≠ 1)
      ∧ ∀ k, remove_dead_ends gs (k + 1) g' = some g' := by
  have hde := remove_dead_ends_no_dead_ends gs fuel g g' h
  constructor
  · intro x y hv hw hc
    have hmem : ((x, y) : Pos) ∈ find_dead_ends g' gs :=
      mem_find_dead_ends.mpr ⟨hv, hw, hc⟩
    rw [hde] at hmem
    cases hmem
  · intro k
    unfold remove_dead_ends
    rw [hde]
    rfl

/-- Witness for C4: on the all-`PATH` grid the loop exits at once, the
center cell has four open neighbours (not one), and reruns return the grid
unchanged. -/
theorem c4_witness :
    openCount allPathGrid 3 1 1 ≠ 1
      ∧ remove_dead_ends 3 5 allPathGrid = some allPathGrid :=
  ⟨(c4_remove_dead_ends_clean_and_idempotent 3 1 allPathGrid allPathGrid
      rfl).1 1 1 (by decide) (by decide),
    (c4_remove_dead_ends_clean_and_idempotent 3 1 allPathGrid allPathGrid
      rfl).2 4⟩

/-- C10 (claim: `remove_dead_ends` only flips `WALL` to `PATH`, never the
reverse): whenever the loop completes, every originally-`PATH` cell is
still `PATH`, and reachability through non-wall cells is preserved. -/
theorem c10_remove_dead_ends_monotone (gs fuel : Nat) (g g' : Grid)
    (h : remove_dead_ends gs fuel g = some g') :
    (∀ j i, g j i = PATH → g' j i = PATH)
      ∧ ∀ p q : Pos, Reach g gs p q → Reach g' gs p q := by
  have hpt := remove_dead_ends_pointwise gs fuel g g' h
  constructor
  · intro j i hp
    rcases hpt j i with h1 | h1
    · rw [h1, hp]
    · exact h1
  · intro p q hr
    refine Relation.ReflTransGen.mono ?_ hr
    intro a b hab
    refine ⟨hab.1, ?_⟩
    have hb := hab.2
    unfold isValidPath at hb ⊢
    rw [decide_eq_true_iff] at hb ⊢
    obtain ⟨h1, h2, h3, h4, h5⟩ := hb
    refine ⟨h1, h2, h3, h4, ?_⟩
    rcases hpt b.2.toNat b.1.toNat with h6 | h6
    · rw [h6]; exact h5
    · rw [h6]; decide

/-- Witness for C10: trivially instantiated at the all-`PATH` grid, where
the loop completes immediately. -/
theorem c10_witness :
    allPathGrid 2 2 = PATH ∧ Reach allPathGrid 3 (0, 0) (0, 0) :=
  ⟨(c10_remove_dead_ends_monotone 3 1 allPathGrid allPathGrid rfl).1 2 2 rfl,
    (c10_remove_dead_ends_monotone 3 1 allPathGrid allPathGrid rfl).2
      (0, 0) (0, 0) Relation.ReflTransGen.refl⟩

/-- C2 (claim: `find_path` returns a minimum-length path): refuted by
evaluation.  On `astarCexGrid` from `(1, 8)` to `(7, 0)` the pathfinder
returns a 21-coordinate (20-move) path, while `astarCexShorter` is a valid
19-coordinate (18-move) walk between the same endpoints — the no-repush
handling of improved `g_score`s makes the search pop the goal with a
suboptimal score.  This also contradicts the function's own docstring
("Find shortest path"), hence a code bug. -/
theorem c2_find_path_not_shortest :
    find_path astarCexGrid 11 (1, 8) (7, 0) = some (some astarCexReturned)
      ∧ astarCexReturned.length = 21
      ∧ validWalk astarCexGrid 11 (1, 8) (7, 0) astarCexShorter = true
      ∧ astarCexShorter.length = 19 :=
  ⟨by decide, by decide, by decide, by decide⟩

/-- C5 (claim: MazeType3/MazeType4 run MazeType2's mirror-seam connector
pass after mirroring): counterexample.  On the all-zero draw stream at
`grid_size = 5`, the actual `MazeType3.generate` leaves the seam cell
`(x, y) = (2, 1)` a `WALL`, while the spec-claimed pipeline (mirror followed
by `_connect_mirror_line` on the same stream) opens it to `PATH` — so
`generate` does not run the claimed connector pass. -/
theorem c5_no_seam_connector_counterexample :
    genType3 true rsZeros 5 1 2 = WALL
      ∧ genType3Claimed true rsZeros 5 1 2 = PATH :=
  ⟨by decide, by decide⟩

/-- C5 amended: MazeType3 and MazeType4 mirror and return, with no seam
connector pass; a seam cell can stay `WALL` even though both facing
half-cells are `PATH`, exactly the situation MazeType2's connector (which
the spec-claimed pipelines `genType3Claimed` / `genType4Claimed` would run)
can open. -/
theorem c5_mirror_without_connector :
    (genType3 true rsZeros 5 1 1 = PATH ∧ genType3 true rsZeros 5 1 3 = PATH
      ∧ genType3 true rsZeros 5 1 2 = WALL)
    ∧ (genType4 true rsOneThenZeros 7 1 2 = PATH
      ∧ genType4 true rsOneThenZeros 7 1 4 = PATH
      ∧ genType4 true rsOneThenZeros 7 1 3 = WALL
      ∧ genType4Claimed true rsOneThenZeros 7 1 3 = PATH) :=
  ⟨⟨by decide, by decide, by decide⟩, by decide, by decide, by decide, by decide⟩

/-- C6 (claim: every accepted generation attempt satisfies both validation
checks): whenever the orchestrator accepts a grid before exhausting its
attempts, the accepted triple consists of the generated grid together with
its freshly computed corner-based start/end, and both `is_connected` and
`is_fully_traversable` hold for them — acceptance is literally conditioned
on the two checks. -/
theorem c6_accepted_grid_validates (gen : Nat → Grid) (gs : Nat)
    (remaining k : Nat) (g : Grid) (s e : Pos)
    (h : orchTry gen gs remaining k = some (g, s, e)) :
    is_connected g gs s e = some true
      ∧ is_fully_traversable g gs (some s) = some true
      ∧ (s, e) = find_start_end g gs := by
  induction remaining generalizing k with
  | zero => cases h
  | succ n ih =>
    unfold orchTry at h
    split_ifs at h with hacc
    · injection h with h
      rw [Prod.mk.injEq] at h
      obtain ⟨hg, hse⟩ := h
      rw [Prod.mk.injEq] at hse
      obtain ⟨hs, he⟩ := hse
      subst hg
      subst hs
      subst he
      exact ⟨hacc.1, hacc.2, rfl⟩
    · exact ih (k + 1) h

/-- Witness for C6: a generator that always emits the all-`PATH` grid is
accepted at the first attempt with corner start `(0, 0)` and end `(2, 2)`. -/
theorem c6_witness :
    is_connected allPathGrid 5 (0, 0) (2, 2) = some true
      ∧ is_fully_traversable allPathGrid 5 (some (0, 0)) = some true
      ∧ (((0, 0) : Pos), ((2, 2) : Pos)) = find_start_end allPathGrid 5 :=
  c6_accepted_grid_validates (fun _ => allPathGrid) 5 1 0 allPathGrid
    (0, 0) (2, 2) rfl

/-- C7 (claim: on exhausting all attempts the orchestrator yields the
all-`PATH` fallback grid with default opposite-corner start/end, and never
raises): if every attempt is rejected, the (total) orchestrator returns
exactly the fallback triple, whose grid is everywhere `PATH`. -/
theorem c7_fallback_on_exhaustion (gen : Nat → Grid) (gs maxAttempts : Nat)
    (hrej : ∀ k < maxAttempts,
      ¬ (is_connected (gen k) gs (find_start_end (gen k) gs).1
            (find_start_end (gen k) gs).2 = some true
          ∧ is_fully_traversable (gen k) gs
            (some (find_start_end (gen k) gs).1) = some true)) :
    orchestrate gen gs maxAttempts
        = (allPathGrid, (1, 1), ((gs : Int) - 2, (gs : Int) - 2))
      ∧ ∀ j i, (orchestrate gen gs maxAttempts).1 j i = PATH := by
  have hnone : ∀ (r k : Nat),
      (∀ d < r, ¬ (is_connected (gen (k + d)) gs
            (find_start_end (gen (k + d)) gs).1
            (find_start_end (gen (k + d)) gs).2 = some true
          ∧ is_fully_traversable (gen (k + d)) gs
            (some (find_start_end (gen (k + d)) gs).1) = some true)) →
      orchTry gen gs r k = none := by
    intro r
    induction r with
    | zero => intro k _; rfl
    | succ n ih =>
      intro k hk
      unfold orchTry
      split_ifs with hacc
      · exact absurd hacc (by simpa using hk 0 (Nat.succ_pos n))
      · exact ih (k + 1) (fun d hd => by
          have := hk (d + 1) (by omega)
          simpa [Nat.add_assoc, Nat.add_comm 1 d] using this)
  have h0 : orchTry gen gs maxAttempts 0 = none :=
    hnone maxAttempts 0 (fun d hd => by simpa using hrej d hd)
  constructor
  · unfold orchestrate
    rw [h0]
    rfl
  · intro j i
    unfold orchestrate
    rw [h0]
    rfl

/-- Witness for C7: a generator that always emits the all-`WALL` grid is
rejected on both attempts, and the orchestrator yields the fallback. -/
theorem c7_witness :
    orchestrate (fun _ => fun _ _ => WALL) 5 2
      = (allPathGrid, (1, 1), ((5 : Int) - 2, (5 : Int) - 2)) :=
  (c7_fallback_on_exhaustion (fun _ => fun _ _ => WALL) 5 2 (by decide)).1

/-- C9 (claim: `find_nearest_walkable_tile` returns null whenever every
walkable cell is strictly farther than `max_search_radius` hops): refuted
by evaluation.  On `nearestCexGrid` the only walkable cell `(4, 0)` is 4
hops from the target `(0, 0)`, yet with `max_search_radius = 3` the
function returns it instead of null: the radius check only stops the
expansion of cells already beyond the radius, so walkable cells at
`max_search_radius + 1` hops are still returned.  This contradicts the
documented meaning of `max_search_radius` ("Maximum tiles to search from
target"), hence a code bug. -/
theorem c9_nearest_walkable_exceeds_radius :
    find_nearest_walkable_tile nearestCexGrid 5 0 0 3 = some (some (4, 0))
      ∧ manhattan (0, 0) (4, 0) = 4 :=
  ⟨by decide, by decide⟩

/-! ## Helper lemmas for claim C8 (the validator BFS) -/

/-- Visiting a fresh valid cell decreases the unvisited count by one. -/
lemma unvisitedCount_cons (g : Grid) (gs : Nat) (visited : List Pos)
    (n : Pos) (hval : isValidPath g gs n.1 n.2 = true)
    (hnotin : n ∉ visited) :
    unvisitedCount g gs (n :: visited) + 1 = unvisitedCount g gs visited := by
  unfold unvisitedCount
  have hmem : n ∈ (validCells gs).filter
      (fun p => isValidPath g gs p.1 p.2 = true ∧ p ∉ visited) := by
    rw [Finset.mem_filter]
    refine ⟨?_, hval, hnotin⟩
    unfold validCells
    rw [Finset.mem_product, Finset.mem_Icc, Finset.mem_Icc]
    have hb := hval
    unfold isValidPath at hb
    rw [decide_eq_true_iff] at hb
    omega
  have hset : (validCells gs).filter
      (fun p => isValidPath g gs p.1 p.2 = true ∧ p ∉ (n :: visited))
      = ((validCells gs).filter
        (fun p => isValidPath g gs p.1 p.2 = true ∧ p ∉ visited)).erase n := by
    ext q
    rw [Finset.mem_erase, Finset.mem_filter, Finset.mem_filter, List.mem_cons]
    constructor
    · rintro ⟨hq, hv, hq2⟩
      exact ⟨fun he => hq2 (Or.inl he), hq, hv, fun hm => hq2 (Or.inr hm)⟩
    · rintro ⟨hne, hq, hv, hq2⟩
      exact ⟨hq, hv, fun hm => hm.elim hne hq2⟩
  rw [hset, Finset.card_erase_of_mem hmem]
  have hpos := Finset.card_pos.mpr ⟨n, hmem⟩
  omega

/-- When the neighbour scan returns `true`, some scanned direction hits the
target cell. -/
lemma connDirs_true_spec (g : Grid) (gs : Nat) (e : Pos) :
    ∀ (ds : List Pos) (p : Pos) (visited queue : List Pos),
      (connDirs g gs e ds p visited queue).1 = true →
      ∃ d ∈ ds, ((p.1 + d.1, p.2 + d.2) : Pos) = e := by
  intro ds
  induction ds with
  | nil => intro p visited queue h; cases h
  | cons d t ih =>
    intro p visited queue h
    obtain ⟨px, py⟩ := p
    obtain ⟨dx, dy⟩ := d
    unfold connDirs at h
    split_ifs at h with h1 h2
    · exact ⟨(dx, dy), List.mem_cons_self .., h1⟩
    · obtain ⟨d', hd', he⟩ := ih (px, py) _ _ h
      exact ⟨d', List.mem_cons_of_mem _ hd', he⟩
    · obtain ⟨d', hd', he⟩ := ih (px, py) _ _ h
      exact ⟨d', List.mem_cons_of_mem _ hd', he⟩

/-- Full description of a neighbour scan that did not hit the target:
growth of the visited set and queue, the origin of new cells, completeness
of the expansion, queue shape facts, and the termination measure bound. -/
lemma connDirs_false_spec (g : Grid) (gs : Nat) (e : Pos) :
    ∀ (ds : List Pos) (p : Pos) (visited queue v' q' : List Pos),
      connDirs g gs e ds p visited queue = (false, v', q') →
      (∀ x ∈ queue, x ∈ visited) → queue.Nodup →
      (∀ x ∈ queue, x ∈ q')
      ∧ (∀ x ∈ visited, x ∈ v')
      ∧ (∀ x ∈ v', x ∈ visited
          ∨ ((∃ d ∈ ds, x = ((p.1 + d.1, p.2 + d.2) : Pos))
            ∧ isValidPath g gs x.1 x.2 = true))
      ∧ (∀ x ∈ q', x ∈ v')
      ∧ (∀ x ∈ v', x ∉ visited → x ∈ q')
      ∧ q'.Nodup
      ∧ (∀ d ∈ ds, ((p.1 + d.1, p.2 + d.2) : Pos) ≠ e
          ∧ (isValidPath g gs (p.1 + d.1) (p.2 + d.2) = true →
              ((p.1 + d.1, p.2 + d.2) : Pos) ∈ v'))
      ∧ q'.length + 2 * unvisitedCount g gs v'
          ≤ queue.length + 2 * unvisitedCount g gs visited := by
  intro ds
  induction ds with
  | nil =>
    intro p visited queue v' q' h hqv hnd
    obtain ⟨px, py⟩ := p
    unfold connDirs at h
    injection h with h1 h2
    injection h2 with h2 h3
    subst h2
    subst h3
    exact ⟨fun x hx => hx, fun x hx => hx, fun x hx => Or.inl hx,
      hqv, fun x hx hnx => absurd hx hnx,
      hnd, fun d hd => absurd hd (List.not_mem_nil d), le_rfl⟩
  | cons d t ih =>
    intro p visited queue v' q' h hqv hnd
    obtain ⟨px, py⟩ := p
    obtain ⟨dx, dy⟩ := d
    unfold connDirs at h
    split_ifs at h with h1 h2
    · injection h with hb _
      exact absurd hb (by decide)
    · -- fresh valid neighbour: recurse on the grown state
      have hqv' : ∀ x ∈ queue ++ [((px + dx, py + dy) : Pos)],
          x ∈ ((px + dx, py + dy) : Pos) :: visited := by
        intro x hx
        rcases List.mem_append.mp hx with hx | hx
        · exact List.mem_cons_of_mem _ (hqv x hx)
        · rw [List.mem_singleton] at hx
          exact hx ▸ List.mem_cons_self ..
      have hnd' : (queue ++ [((px + dx, py + dy) : Pos)]).Nodup := by
        rw [List.nodup_append]
        refine ⟨hnd, List.nodup_singleton _, ?_⟩
        intro x hx
        rw [List.mem_singleton]
        intro hxe
        exact h2.2 (hxe ▸ hqv x hx)
      obtain ⟨c0, c1, c2, c3, c4, c5, c6, c7⟩ := ih (px, py) _ _ v' q' h hqv' hnd'
      refine ⟨?_, ?_, ?_, c3, ?_, c5, ?_, ?_⟩
      · intro x hx
        exact c0 x (List.mem_append.mpr (Or.inl hx))
      · intro x hx
        exact c1 x (List.mem_cons_of_mem _ hx)
      · intro x hx
        rcases c2 x hx with hx1 | ⟨⟨d', hd', he⟩, hval⟩
        · rcases List.mem_cons.mp hx1 with rfl | hx2
          · exact Or.inr ⟨⟨(dx, dy), List.mem_cons_self .., rfl⟩, h2.1⟩
          · exact Or.inl hx2
        · exact Or.inr ⟨⟨d', List.mem_cons_of_mem _ hd', he⟩, hval⟩
      · intro x hx hnx
        by_cases hxe : x = ((px + dx, py + dy) : Pos)
        · exact c0 x (List.mem_append.mpr (Or.inr (List.mem_singleton.mpr hxe)))
        · exact c4 x hx (fun hm => (List.mem_cons.mp hm).elim hxe hnx)
      · intro d' hd'
        rcases List.mem_cons.mp hd' with rfl | hd2
        · exact ⟨h1, fun _ => c1 _ (List.mem_cons_self ..)⟩
        · exact c6 d' hd2
      · have hcnt := unvisitedCount_cons g gs visited ((px + dx, py + dy) : Pos)
          h2.1 h2.2
        have hlen : (queue ++ [((px + dx, py + dy) : Pos)]).length
            = queue.length + 1 := by simp
        omega
    · -- neighbour is the target's complement: already visited or invalid
      obtain ⟨c0, c1, c2, c3, c4, c5, c6, c7⟩ := ih (px, py) _ _ v' q' h hqv hnd
      refine ⟨c0, c1, ?_, c3, c4, c5, ?_, c7⟩
      · intro x hx
        rcases c2 x hx with hx1 | ⟨⟨d', hd', he⟩, hval⟩
        · exact Or.inl hx1
        · exact Or.inr ⟨⟨d', List.mem_cons_of_mem _ hd', he⟩, hval⟩
      · intro d' hd'
        rcases List.mem_cons.mp hd' with rfl | hd2
        · refine ⟨h1, fun hval => ?_⟩
          have hin : ((px + dx, py + dy) : Pos) ∈ visited := by
            by_contra hni
            exact h2 ⟨hval, hni⟩
          exact c1 _ hin
        · exact c6 d' hd2

/-- Correctness of the `is_connected` BFS loop: under the invariant, with
fuel above the measure, the loop always completes; a `true` answer exhibits
a reachable cell adjacent to the target, and a `false` answer excludes any
such cell. -/
lemma connLoop_correct (g : Grid) (gs : Nat) (s e : Pos) :
    ∀ (fuel : Nat) (visited queue : List Pos),
      ConnInv g gs s e visited queue →
      queue.length + 2 * unvisitedCount g gs visited < fuel →
      connLoop g gs e fuel visited queue ≠ none
      ∧ (connLoop g gs e fuel visited queue = some true →
          ∃ c, Reach g gs s c ∧ Adj c e)
      ∧ (connLoop g gs e fuel visited queue = some false →
          ¬ ∃ c, Reach g gs s c ∧ Adj c e) := by
  intro fuel
  induction fuel with
  | zero =>
    intro visited queue hinv hm
    omega
  | succ f ih =>
    intro visited queue hinv hm
    obtain ⟨hqv, hnd, hsv, hreach, hclosed⟩ := hinv
    cases queue with
    | nil =>
      refine ⟨by simp [connLoop], ?_, ?_⟩
      · intro h
        unfold connLoop at h
        injection h with h
        exact absurd h (by decide)
      · rintro - ⟨c, hc, d, hd, he⟩
        have hcv : c ∈ visited := by
          clear he hd
          induction hc with
          | refl => exact hsv
          | tail hab hbc ihc =>
            obtain ⟨⟨d0, hd0, he0⟩, hval⟩ := hbc
            rw [he0]
            apply (hclosed _ ihc (List.not_mem_nil _) d0 hd0).2
            rw [he0] at hval
            exact hval
        exact (hclosed c hcv (List.not_mem_nil _) d hd).1 he.symm
    | cons p rest =>
      rcases hcd : connDirs g gs e dirsNESW p visited rest with ⟨b, v', q'⟩
      cases b with
      | true =>
        have heq' : connLoop g gs e (f + 1) visited (p :: rest) = some true := by
          show (match connDirs g gs e dirsNESW p visited rest with
            | (true, _, _) => some true
            | (false, v', q') => connLoop g gs e f v' q') = some true
          rw [hcd]
        refine ⟨by rw [heq']; simp, ?_, ?_⟩
        · intro _
          obtain ⟨d, hd, he⟩ := connDirs_true_spec g gs e dirsNESW p
            visited rest (by rw [hcd])
          exact ⟨p, hreach p (hqv p (List.mem_cons_self ..)), d, hd, he.symm⟩
        · intro h
          rw [heq'] at h
          injection h with h
          exact absurd h (by decide)
      | false =>
        have heq' : connLoop g gs e (f + 1) visited (p :: rest)
            = connLoop g gs e f v' q' := by
          show (match connDirs g gs e dirsNESW p visited rest with
            | (true, _, _) => some true
            | (false, v', q') => connLoop g gs e f v' q')
            = connLoop g gs e f v' q'
          rw [hcd]
        have hqv0 : ∀ x ∈ rest, x ∈ visited :=
          fun x hx => hqv x (List.mem_cons_of_mem _ hx)
        have hnd0 : rest.Nodup := (List.nodup_cons.mp hnd).2
        obtain ⟨c0, c1, c2, c3, c4, c5, c6, c7⟩ :=
          connDirs_false_spec g gs e dirsNESW p visited rest v' q' hcd
            hqv0 hnd0
        have hpv : p ∈ visited := hqv p (List.mem_cons_self ..)
        have hinv' : ConnInv g gs s e v' q' := by
          refine ⟨c3, c5, c1 s hsv, ?_, ?_⟩
          · intro x hx
            rcases c2 x hx with h1 | ⟨⟨d, hd, he⟩, hval⟩
            · exact hreach x h1
            · exact Relation.ReflTransGen.tail (hreach p hpv)
                ⟨⟨d, hd, he⟩, hval⟩
          · intro x hx hnq d hd
            by_cases hxv : x ∈ visited
            · by_cases hxp : x = p
              · subst hxp
                exact c6 d hd
              · have hxr : x ∉ rest := fun hr => hnq (c0 x hr)
                have hxq : x ∉ p :: rest := by
                  rw [List.mem_cons]
                  rintro (h1 | h1)
                  · exact hxp h1
                  · exact hxr h1
                obtain ⟨hne, himp⟩ := hclosed x hxv hxq d hd
                exact ⟨hne, fun hval => c1 _ (himp hval)⟩
            · exact absurd (c4 x hx hxv) hnq
        have hm' : q'.length + 2 * unvisitedCount g gs v' < f := by
          simp only [List.length_cons] at hm
          omega
        obtain ⟨ih1, ih2, ih3⟩ := ih v' q' hinv' hm'
        refine ⟨?_, ?_, ?_⟩
        · rw [heq']; exact ih1
        · rw [heq']; exact ih2
        · rw [heq']; exact ih3

/-- C8 (claim: `is_connected` returns true iff the BFS from `start` reaches
`end` without crossing walls, trivially true for equal endpoints, and never
raises): the fuelled run always completes (never exhausts its
`2 * gs * gs + 2` budget, the shallow-embedding counterpart of "never
raises"), and its answer is `true` exactly on `ConnSpec` — equal endpoints,
or some cell reachable from `start` through in-bounds non-wall cells having
`end` as an orthogonal neighbour (matching the code, which accepts `end` on
sight as a neighbour without checking that `end` itself is walkable). -/
theorem c8_is_connected_iff_reachable (g : Grid) (gs : Nat) (s e : Pos) :
    is_connected g gs s e ≠ none
      ∧ (is_connected g gs s e = some true ↔ ConnSpec g gs s e) := by
  unfold is_connected
  by_cases hse : s = e
  · rw [if_pos hse]
    refine ⟨by simp, ?_, fun _ => rfl⟩
    intro _
    exact Or.inl hse
  · rw [if_neg hse]
    have hinv : ConnInv g gs s e [s] [s] := by
      refine ⟨fun p hp => hp, List.nodup_singleton s,
        List.mem_singleton.mpr rfl, ?_, ?_⟩
      · intro p hp
        rw [List.mem_singleton] at hp
        subst hp
        exact Relation.ReflTransGen.refl
      · intro p hp hnp
        exact absurd hp hnp
    have hcard : unvisitedCount g gs [s] ≤ gs * gs := by
      unfold unvisitedCount
      calc ((validCells gs).filter _).card
          ≤ (validCells gs).card := Finset.card_filter_le _ _
        _ = gs * gs := by
            unfold validCells
            rw [Finset.card_product, Int.card_Icc]
            have : ((gs : Int) - 1 + 1 - 0).toNat = gs := by omega
            rw [this]
    have hm : ([s] : List Pos).length + 2 * unvisitedCount g gs [s]
        < connFuel gs := by
      unfold connFuel
      simp only [List.length_singleton]
      have h2 : 2 * gs * gs = 2 * (gs * gs) := by ring
      rw [h2]
      omega
    obtain ⟨hne, htrue, hfalse⟩ :=
      connLoop_correct g gs s e (connFuel gs) [s] [s] hinv hm
    refine ⟨hne, ?_, ?_⟩
    · intro h
      exact Or.inr (htrue h)
    · intro hc
      rcases hc with hc | hc
      · exact absurd hc hse
      · rcases hval : connLoop g gs e (connFuel gs) [s] [s] with _ | b
        · exact absurd hval hne
        · cases b with
          | true => rfl
          | false => exact absurd hc (hfalse hval)

end BrainMaze
